import Mathlib

/-!
Shallow embedding of the perpetuals logic of this repository:
the liquidation path (`programs/manifest/src/program/processor/liquidate.rs`)
and the funding crank (`programs/manifest/src/program/processor/crank_funding.rs`).

Machine integers are embedded as `Nat` (for `u32`/`u64`/`u128`) and `Int`
(for `i32`/`i64`/`i128`), with explicit two's-complement wrapping
(`wrapI64`) where the source performs an `as i64` cast, explicit saturation
(`satAddU64`, `satAddI64`, `satSubI64`) where the source calls a
`saturating_*` method, and truncating division (`Int.tdiv`) where the
source divides signed integers.  `Nat` subtraction coincides with
`u64::saturating_sub`.  Fallible operations return `Except` or `Option`.
-/

/-! ## Machine-integer helpers -/

def U32_MAX : Nat := 4294967295

def U64_MAX : Nat := 18446744073709551615

def I64_MIN : Int := -9223372036854775808

def I64_MAX : Int := 9223372036854775807

/-- Two's-complement wrap of an integer into the `i64` range, the effect of
an `as i64` cast from a wider integer type in the source. -/
def wrapI64 (x : Int) : Int := (x + 2 ^ 63) % 2 ^ 64 - 2 ^ 63

/-- Reinterpretation of a `u64` bit pattern as an `i64` (`as i64` on `u64`). -/
def u64AsI64 (u : Nat) : Int := if u < 2 ^ 63 then (u : Int) else (u : Int) - 2 ^ 64

/-- Reinterpretation of a `u32` bit pattern as an `i32` (`as i32` on `u32`). -/
def u32AsI32 (u : Nat) : Int := if u < 2 ^ 31 then (u : Int) else (u : Int) - 2 ^ 32

/-- `u64::saturating_add`. -/
def satAddU64 (a b : Nat) : Nat := min (a + b) U64_MAX

/-- `i64::saturating_add`. -/
def satAddI64 (a b : Int) : Int := max I64_MIN (min I64_MAX (a + b))

/-- `i64::saturating_sub`. -/
def satSubI64 (a b : Int) : Int := max I64_MIN (min I64_MAX (a - b))

def I128_MIN : Int := -170141183460469231731687303715884105728

def I128_MAX : Int := 170141183460469231731687303715884105727

/-- Two's-complement wrap of an integer into the `i128` range: the result
of an `i128` addition, subtraction or multiplication whose exact value
overflows.  The source's release build wraps such overflows (a build with
overflow checks would abort the instruction instead; the theorems about
the funding-rate branch are stated on the overflow-free region, where the
two behaviors coincide). -/
def wrapI128 (x : Int) : Int := (x + 2 ^ 127) % 2 ^ 128 - 2 ^ 127

/-- `10i128.pow(n)` under wrapping `i128` arithmetic.  `pow` is a chain of
`i128` multiplications; wrapping multiplication is multiplication in the
ring of integers modulo `2^128`, so any such chain equals the exact power
reduced modulo `2^128`.  In particular `10^n` wraps to exactly 0 for every
`n ≥ 128` (its 2-adic valuation reaches 128). -/
def pow10i128 (n : Nat) : Int := wrapI128 (10 ^ n)


/-! ## Fixed-precision price arithmetic

The price type `QuoteAtomsPerBaseAtom` of the repository's `quantities`
module is not under `src/`; it is embedded from the specification.  A price
is a `u32` mantissa with an `i8` exponent, denoting
`mantissa * 10 ^ exponent` quote atoms per base atom. -/

structure QuoteAtomsPerBaseAtom where
  mantissa : Nat
  exponent : Int
deriving DecidableEq, Repr

/-- Rational value of a price, `mantissa * 10 ^ exponent`. -/
def priceVal (p : QuoteAtomsPerBaseAtom) : ℚ :=
  if 0 ≤ p.exponent then (p.mantissa : ℚ) * (10 : ℚ) ^ p.exponent.toNat
  else (p.mantissa : ℚ) / (10 : ℚ) ^ (-p.exponent).toNat

/-- Comparison of two prices by real value, as a boolean computed over `Nat`
after rescaling both mantissas to the smaller exponent.  Modelled from the
spec: prices denote `mantissa * 10 ^ exponent` and compare by that value. -/
def priceLeB (a b : QuoteAtomsPerBaseAtom) : Bool :=
  let e := min a.exponent b.exponent
  Nat.ble (a.mantissa * 10 ^ (a.exponent - e).toNat)
    (b.mantissa * 10 ^ (b.exponent - e).toNat)

/-- Strict boolean comparison of two prices by real value. -/
def priceLtB (a b : QuoteAtomsPerBaseAtom) : Bool :=
  let e := min a.exponent b.exponent
  Nat.blt (a.mantissa * 10 ^ (a.exponent - e).toNat)
    (b.mantissa * 10 ^ (b.exponent - e).toNat)

/-- Modelled from the spec: `checked_quote_for_base` of the repository's
`quantities` module (not under `src/`).  Per spec section 4.C: the product
`mantissa * base_atoms` is formed exactly; a nonnegative exponent scales it
up by `10 ^ e`, a negative exponent divides by `10 ^ (-e)` adding one when
`round_up` is set and the remainder is nonzero; a final value above
`u64::MAX` is an `Overflow` failure, embedded as `none`. -/
def checked_quote_for_base (p : QuoteAtomsPerBaseAtom) (baseAtoms : Nat)
    (roundUp : Bool) : Option Nat :=
  let product := p.mantissa * baseAtoms
  let r : Nat :=
    if 0 ≤ p.exponent then product * 10 ^ p.exponent.toNat
    else
      let d := 10 ^ (-p.exponent).toNat
      if roundUp && decide (product % d ≠ 0) then product / d + 1 else product / d
  if r ≤ U64_MAX then some r else none

/-! ## Errors

Error values returned by the two embedded processors.  `invalidArgument`
is `solana_program::program_error::ProgramError::InvalidArgument`;
`notLiquidatable` and `invalidPerpsOperation` are the repository's
`ManifestError` variants of those names; `overflow` stands for the error a
failed checked arithmetic operation propagates (spec section 7).
`notFound` is modelled from the spec: the spec's outward error taxonomy
(section 6) names a distinct *NotFound* error, which no code under `src/`
produces.  `arithmeticAbort` stands for a Rust arithmetic panic (an `i128`
division by zero or `i128::MIN / -1`), which aborts the instruction; at
the host boundary an aborted instruction behaves like any other failure:
nothing is persisted. -/

inductive PErr where
  | invalidArgument
  | notFound
  | notLiquidatable
  | invalidPerpsOperation
  | overflow
  | arithmeticAbort
deriving DecidableEq, Repr

deriving instance DecidableEq for Except

/-- Boolean success test for an embedded processor result. -/
def isOkE {α : Type} (e : Except PErr α) : Bool :=
  match e with
  | .ok _ => true
  | .error _ => false

/-! ## Oracle account read (`crank_funding.rs`, `read_pyth_price`)

Account data is a byte list; `readLE data off len` is the little-endian
value of the `len` bytes starting at `off` (missing positions read as 0,
which never happens on inputs that pass the length check). -/

def readLE (data : List Nat) : Nat → Nat → Nat
  | _, 0 => 0
  | off, len + 1 => data.getD off 0 + 256 * readLE data (off + 1) len

def PYTH_MAGIC : Nat := 0xa1b2c3d4

def PYTH_EXPO_OFFSET : Nat := 20

def PYTH_AGG_PRICE_OFFSET : Nat := 208

def PYTH_AGG_CONF_OFFSET : Nat := 216

def PYTH_AGG_STATUS_OFFSET : Nat := 224

def PYTH_STATUS_TRADING : Nat := 1

def PYTH_MIN_DATA_LEN : Nat := 240

/-- Embedding of `read_pyth_price` (`crank_funding.rs` lines 48-92): data
shorter than 240 bytes, a wrong magic, a non-trading status, or a
non-positive aggregate price fail with `ManifestError::InvalidPerpsOperation`;
otherwise the `(price, expo, confidence)` triple is returned. -/
def read_pyth_price (data : List Nat) : Except PErr (Int × Int × Nat) :=
  if data.length < PYTH_MIN_DATA_LEN then .error .invalidPerpsOperation
  else if readLE data 0 4 ≠ PYTH_MAGIC then .error .invalidPerpsOperation
  else
    let expo := u32AsI32 (readLE data PYTH_EXPO_OFFSET 4)
    let price := u64AsI64 (readLE data PYTH_AGG_PRICE_OFFSET 8)
    let conf := readLE data PYTH_AGG_CONF_OFFSET 8
    let status := readLE data PYTH_AGG_STATUS_OFFSET 4
    if status ≠ PYTH_STATUS_TRADING then .error .invalidPerpsOperation
    else if price ≤ 0 then .error .invalidPerpsOperation
    else .ok (price, expo, conf)

/-! ## Market state

The market buffer's content, as far as the two embedded processors read and
write it.  Seats are an association list keyed by trader identity (a
32-byte public key, embedded as `Nat`); the claimed-seat tree of the
repository keeps one node per trader, so lists of interest have no
duplicate keys.  A resting order is reduced to the fields the liquidation
path touches: its owner, its price, and the funds it keeps locked (quote
atoms for a bid, base atoms for an ask), which cancellation releases back
to the owner's seat (spec sections 4.E, 4.F, 4.I). -/

structure ClaimedSeat where
  quoteWithdrawable : Nat
  baseWithdrawable : Nat
  positionSize : Int
  quoteCostBasis : Nat
deriving DecidableEq, Repr

structure Order where
  trader : Nat
  price : QuoteAtomsPerBaseAtom
  lockedFunds : Nat
deriving DecidableEq, Repr

structure Market where
  seats : List (Nat × ClaimedSeat)
  bids : List Order
  asks : List Order
  oracleMantissa : Nat
  oracleExpo : Int
  baseMintDecimals : Nat
  quoteMintDecimals : Nat
  maintenanceMarginBps : Nat
  totalLongBaseAtoms : Nat
  totalShortBaseAtoms : Nat
  cumulativeFunding : Int
  lastFundingTs : Int
deriving DecidableEq, Repr

/-- Seat lookup by trader identity; embeds `get_trader_index` returning
`NIL` (here `none`) when the trader has no claimed seat. -/
def seatLookup : List (Nat × ClaimedSeat) → Nat → Option ClaimedSeat
  | [], _ => none
  | (k, s) :: rest, t => if k = t then some s else seatLookup rest t

/-- Pointwise update of the seat with the given key (a no-op when the key
is absent, matching the source's `NIL` check before mutating). -/
def updateSeat : List (Nat × ClaimedSeat) → Nat → (ClaimedSeat → ClaimedSeat) →
    List (Nat × ClaimedSeat)
  | [], _, _ => []
  | (k, s) :: rest, t, f =>
    if k = t then (k, f s) :: updateSeat rest t f
    else (k, s) :: updateSeat rest t f

/-- Best (highest-priced) bid of the book; embeds the header's cached
best-bid index, which per spec section 4.F always designates the bid
tree's best node.  The first order among equal prices wins, matching the
sequence-number tiebreak for a list kept in insertion order. -/
def bestBidOrder (bids : List Order) : Option Order :=
  bids.foldl
    (fun acc o =>
      match acc with
      | none => some o
      | some b => if priceLtB b.price o.price then some o else some b)
    none

/-- Best (lowest-priced) ask of the book; embeds the header's cached
best-ask index. -/
def bestAskOrder (asks : List Order) : Option Order :=
  asks.foldl
    (fun acc o =>
      match acc with
      | none => some o
      | some a => if priceLtB o.price a.price then some o else some a)
    none

/-- Sum of all seats' quote-withdrawable balances. -/
def sumQuote (seats : List (Nat × ClaimedSeat)) : Nat :=
  (seats.map (fun p => p.2.quoteWithdrawable)).sum

/-! ## Mark price (`liquidate.rs`, `compute_mark_price`) -/

/-- Mantissa-normalization loop of `compute_mark_price` (`liquidate.rs`
lines 241-246): while the mantissa exceeds `u32::MAX` and the exponent is
below `i8::MAX`, divide the mantissa by 10 and bump the exponent.  The
loop strictly shrinks the mantissa, so fuel equal to the starting mantissa
is always enough. -/
def normalizeFuel : Nat → Nat → Int → Nat × Int
  | 0, m, e => (m, e)
  | fuel + 1, m, e =>
    if U32_MAX < m ∧ e < 127 then normalizeFuel fuel (m / 10) (e + 1) else (m, e)

def normalizeMantissa (m : Nat) (e : Int) : Nat × Int := normalizeFuel m m e

/-- Oracle branch of `compute_mark_price` (`liquidate.rs` lines 229-256).
When the cached oracle mantissa is positive, the exponent is adjusted by
`quote_decimals - base_decimals` and the mantissa normalized into `u32`;
if the result fits a `(u32, i8)` price it is returned (the price
constructor `try_from_mantissa_and_exponent` is modelled from the spec as
succeeding on any in-range pair), otherwise — or with no cached oracle —
the branch yields nothing and the caller falls through to the book. -/
def oracleMarkPrice (m : Market) : Option QuoteAtomsPerBaseAtom :=
  if 0 < m.oracleMantissa then
    let adjustedExpo : Int :=
      m.oracleExpo + (m.quoteMintDecimals : Int) - (m.baseMintDecimals : Int)
    let me := normalizeMantissa m.oracleMantissa adjustedExpo
    if me.1 ≤ U32_MAX ∧ -128 ≤ me.2 ∧ me.2 ≤ 127 then some ⟨me.1, me.2⟩
    else none
  else none

/-- Embedding of `compute_mark_price` (`liquidate.rs` lines 228-287): the
oracle branch when it yields a price; otherwise the book, where an empty
book is an `InvalidPerpsOperation` failure, a two-sided book returns the
best bid when its price is at most the best ask's and the best ask
otherwise, and a one-sided book returns its single best. -/
def compute_mark_price (m : Market) : Except PErr QuoteAtomsPerBaseAtom :=
  match oracleMarkPrice m with
  | some p => .ok p
  | none =>
    match bestBidOrder m.bids, bestAskOrder m.asks with
    | none, none => .error .invalidPerpsOperation
    | some b, some a => .ok (if priceLeB b.price a.price then b.price else a.price)
    | some b, none => .ok b.price
    | none, some a => .ok a.price

/-! ## Liquidation (`liquidate.rs`, `process_liquidate`) -/

/-- Modelled from the spec: `cancel_order_by_index` (invoked by
`process_liquidate` lines 76-99 on every order of the target trader, but
itself not under `src/`) removes the order from its book and releases the
funds it kept locked back to the owner's seat — quote atoms for a bid,
base atoms for an ask (spec sections 4.E, 4.H). -/
def cancelAllOrders (m : Market) (t : Nat) : Market :=
  let refundQ := ((m.bids.filter (fun o => o.trader = t)).map Order.lockedFunds).sum
  let refundB := ((m.asks.filter (fun o => o.trader = t)).map Order.lockedFunds).sum
  { m with
    bids := m.bids.filter (fun o => ¬o.trader = t)
    asks := m.asks.filter (fun o => ¬o.trader = t)
    seats := updateSeat m.seats t (fun s =>
      { s with
        quoteWithdrawable := satAddU64 s.quoteWithdrawable refundQ
        baseWithdrawable := satAddU64 s.baseWithdrawable refundB }) }

/-- Quote-withdrawable balance of a trader's seat (0 if absent); the
re-read of the margin balance after cancellations, `liquidate.rs`
lines 102-109. -/
def marginOf (m : Market) (t : Nat) : Nat :=
  match seatLookup m.seats t with
  | some s => s.quoteWithdrawable
  | none => 0

/-- Current market value of the position, `liquidate.rs` lines 114-118:
`checked_quote_for_base` at the mark price over `|position|`, rounding
down (`false`) unconditionally. -/
def liqCurrentValue (mark : QuoteAtomsPerBaseAtom) (absPosition : Nat) :
    Option Nat :=
  checked_quote_for_base mark absPosition false

/-- Unrealized PnL, `liquidate.rs` lines 121-125: both `u64` operands are
cast to `i64` and combined with `wrapping_sub`, in the order given by the
position's sign. -/
def liqUnrealizedPnl (positionSize : Int) (currentValue quoteCostBasis : Nat) :
    Int :=
  if 0 < positionSize then
    wrapI64 (u64AsI64 currentValue - u64AsI64 quoteCostBasis)
  else
    wrapI64 (u64AsI64 quoteCostBasis - u64AsI64 currentValue)

/-- Maintenance requirement, `liquidate.rs` lines 131-135:
`current_value.checked_mul(bps).unwrap_or(u64::MAX) / 10000`. -/
def liqRequiredMaintenance (currentValue bps : Nat) : Nat :=
  (if currentValue * bps ≤ U64_MAX then currentValue * bps else U64_MAX) / 10000

/-- Settled margin, `liquidate.rs` lines 162-166: the margin saturatingly
gains a nonnegative PnL or saturatingly loses `|pnl|` (`Nat` subtraction
is exactly `u64::saturating_sub`). -/
def liqSettledMargin (margin : Nat) (pnl : Int) : Nat :=
  if 0 ≤ pnl then satAddU64 margin pnl.toNat else margin - pnl.natAbs

/-- Liquidator reward, `liquidate.rs` lines 169-172:
`settled.checked_mul(250).unwrap_or(0) / 10000`. -/
def liqReward (settledMargin : Nat) : Nat :=
  (if settledMargin * 250 ≤ U64_MAX then settledMargin * 250 else 0) / 10000

/-- Embedding of `process_liquidate` (`liquidate.rs` lines 33-221).
An absent target seat fails with `ProgramError::InvalidArgument`; a zero
position fails with `NotLiquidatable`; all of the target's orders are
cancelled, the margin re-read, the mark price and current value computed;
a trader whose equity reaches the maintenance requirement fails with
`NotLiquidatable`; otherwise the position settles: position and cost basis
are zeroed, the seat's quote balance becomes `settled - reward`, the
reward is saturatingly credited to the liquidator's seat when it exists
and the reward is positive, and the matching side's total base atoms are
saturatingly decremented by `|position|`. -/
def process_liquidate (m : Market) (liquidator target : Nat) :
    Except PErr Market :=
  match seatLookup m.seats target with
  | none => .error .invalidArgument
  | some seat =>
    if seat.positionSize = 0 then .error .notLiquidatable
    else
      let mc := cancelAllOrders m target
      let margin := marginOf mc target
      match compute_mark_price mc with
      | .error e => .error e
      | .ok mark =>
        match liqCurrentValue mark seat.positionSize.natAbs with
        | none => .error .overflow
        | some cv =>
          let upnl := liqUnrealizedPnl seat.positionSize cv seat.quoteCostBasis
          let equity : Int := (margin : Int) + upnl
          let required := liqRequiredMaintenance cv m.maintenanceMarginBps
          if (required : Int) ≤ equity then .error .notLiquidatable
          else
            let settled := liqSettledMargin margin upnl
            let reward := liqReward settled
            let seats1 := updateSeat mc.seats target (fun s =>
              { s with
                positionSize := 0
                quoteCostBasis := 0
                quoteWithdrawable := settled - reward })
            let seats2 :=
              if 0 < reward then
                updateSeat seats1 liquidator (fun s =>
                  { s with quoteWithdrawable := satAddU64 s.quoteWithdrawable reward })
              else seats1
            if 0 < seat.positionSize then
              .ok { mc with
                seats := seats2
                totalLongBaseAtoms :=
                  mc.totalLongBaseAtoms - seat.positionSize.natAbs }
            else
              .ok { mc with
                seats := seats2
                totalShortBaseAtoms :=
                  mc.totalShortBaseAtoms - seat.positionSize.natAbs }

/-- Variant of `process_liquidate` following the claim's words for the
rounding of `current_value`: round down for a long position, round up for
a short one.  It differs from the embedding of the source only in the
`round_up` flag handed to `checked_quote_for_base`. -/
def process_liquidate_claimRounding (m : Market) (liquidator target : Nat) :
    Except PErr Market :=
  match seatLookup m.seats target with
  | none => .error .invalidArgument
  | some seat =>
    if seat.positionSize = 0 then .error .notLiquidatable
    else
      let mc := cancelAllOrders m target
      let margin := marginOf mc target
      match compute_mark_price mc with
      | .error e => .error e
      | .ok mark =>
        match checked_quote_for_base mark seat.positionSize.natAbs
            (decide (seat.positionSize < 0)) with
        | none => .error .overflow
        | some cv =>
          let upnl := liqUnrealizedPnl seat.positionSize cv seat.quoteCostBasis
          let equity : Int := (margin : Int) + upnl
          let required := liqRequiredMaintenance cv m.maintenanceMarginBps
          if (required : Int) ≤ equity then .error .notLiquidatable
          else
            let settled := liqSettledMargin margin upnl
            let reward := liqReward settled
            let seats1 := updateSeat mc.seats target (fun s =>
              { s with
                positionSize := 0
                quoteCostBasis := 0
                quoteWithdrawable := settled - reward })
            let seats2 :=
              if 0 < reward then
                updateSeat seats1 liquidator (fun s =>
                  { s with quoteWithdrawable := satAddU64 s.quoteWithdrawable reward })
              else seats1
            if 0 < seat.positionSize then
              .ok { mc with
                seats := seats2
                totalLongBaseAtoms :=
                  mc.totalLongBaseAtoms - seat.positionSize.natAbs }
            else
              .ok { mc with
                seats := seats2
                totalShortBaseAtoms :=
                  mc.totalShortBaseAtoms - seat.positionSize.natAbs }

/-! ## Funding crank (`crank_funding.rs`, `process_crank_funding`) -/

def FUNDING_PERIOD_SECS : Int := 3600

def FUNDING_SCALE : Int := 1000000000

/-- `i128` division: panics — aborting the instruction — on a zero divisor
or on the overflowing `i128::MIN / -1`, and otherwise truncates toward
zero.  These panics are unconditional in Rust, independent of the overflow
check profile. -/
def i128Div (a b : Int) : Except PErr Int :=
  if b = 0 then .error .arithmeticAbort
  else if a = I128_MIN ∧ b = -1 then .error .arithmeticAbort
  else .ok (Int.tdiv a b)

/-- Funding rate, `crank_funding.rs` lines 180-183:
`((price_diff * FUNDING_SCALE * time_elapsed) / (oracle_quote * FUNDING_PERIOD)) as i64`
over `i128`.  Every `i128` subtraction and multiplication wraps on
overflow (`wrapI128`), the division truncates toward zero and aborts on a
zero divisor or `i128::MIN / -1` (`i128Div`), and the final `as i64` cast
wraps (`wrapI64`). -/
def fundingRateScaled (markQuote oracleQuote timeElapsed : Int) :
    Except PErr Int :=
  let priceDiff := wrapI128 (markQuote - oracleQuote)
  let numerator := wrapI128 (wrapI128 (priceDiff * FUNDING_SCALE) * timeElapsed)
  let denominator := wrapI128 (oracleQuote * FUNDING_PERIOD_SECS)
  match i128Div numerator denominator with
  | .error e => .error e
  | .ok q => .ok (wrapI64 q)

/-- Funding payment of one seat, `crank_funding.rs` lines 218-219:
`((position_size as i128 * rate as i128) / FUNDING_SCALE as i128) as i64`. -/
def fundingPayment (positionSize rate : Int) : Int :=
  wrapI64 (Int.tdiv (positionSize * rate) FUNDING_SCALE)

/-- Per-seat settlement step of the funding crank, `crank_funding.rs`
lines 205-232: a zero position is untouched; otherwise a nonnegative
payment is saturatingly subtracted from the quote-withdrawable balance and
a negative one saturatingly credited. -/
def applyFundingToSeat (s : ClaimedSeat) (rate : Int) : ClaimedSeat :=
  if s.positionSize = 0 then s
  else
    let payment := fundingPayment s.positionSize rate
    if 0 ≤ payment then
      { s with quoteWithdrawable := s.quoteWithdrawable - payment.toNat }
    else
      { s with quoteWithdrawable := satAddU64 s.quoteWithdrawable payment.natAbs }

/-- Oracle price converted to quote atoms for the reference base amount,
`crank_funding.rs` lines 165-173: `price * 10i128.pow(a)` for a
nonnegative adjusted exponent, else the division
`price / 10i128.pow(-a)`.  Both powers and the product are `i128`
operations that wrap on overflow (`pow10i128`, `wrapI128`) — at adjusted
exponents of 128 and beyond the power wraps to exactly 0, which makes the
product 0 in the nonnegative branch and aborts the division in the
negative branch. -/
def oracleQuoteValue (price adjustedExpo : Int) : Except PErr Int :=
  if 0 ≤ adjustedExpo then
    .ok (wrapI128 (price * pow10i128 adjustedExpo.toNat))
  else
    i128Div price (pow10i128 (-adjustedExpo).toNat)

/-- Embedding of `process_crank_funding` (`crank_funding.rs` lines
94-244).  The oracle account is read (failures propagate), the cached
oracle price on the header is overwritten, and then: a zero last-funding
timestamp is initialized to `now`; a non-positive elapsed time returns; a
failed mark-price computation stamps the timestamp and returns; an
overflowing reference-quote conversion fails; an aborting oracle-quote
conversion or rate division propagates its failure; a non-positive oracle
quote (including one wrapped to zero by `i128` overflow) stamps the
timestamp and returns; otherwise the funding rate is accumulated
saturatingly into `cumulative_funding`, the timestamp is set, and every
seat with a position pays (or receives) its funding payment. -/
def process_crank_funding (m : Market) (oracleData : List Nat) (now : Int) :
    Except PErr Market :=
  match read_pyth_price oracleData with
  | .error e => .error e
  | .ok (oraclePrice, oracleExpo, _conf) =>
    let m1 := { m with oracleMantissa := oraclePrice.toNat, oracleExpo := oracleExpo }
    if m1.lastFundingTs = 0 then .ok { m1 with lastFundingTs := now }
    else
      let timeElapsed := satSubI64 now m1.lastFundingTs
      if timeElapsed ≤ 0 then .ok m1
      else
        match compute_mark_price m1 with
        | .error _ => .ok { m1 with lastFundingTs := now }
        | .ok mark =>
          match checked_quote_for_base mark 1000000000 false with
          | none => .error .overflow
          | some markQuote =>
            let adjustedExpo : Int :=
              oracleExpo + (m1.quoteMintDecimals : Int) -
                (m1.baseMintDecimals : Int) + 9
            match oracleQuoteValue oraclePrice adjustedExpo with
            | .error e => .error e
            | .ok oracleQuote =>
              if oracleQuote ≤ 0 then .ok { m1 with lastFundingTs := now }
              else
                match fundingRateScaled (markQuote : Int) oracleQuote timeElapsed with
                | .error e => .error e
                | .ok rate =>
                  .ok { m1 with
                    cumulativeFunding := satAddI64 m1.cumulativeFunding rate
                    lastFundingTs := now
                    seats := m1.seats.map (fun p => (p.1, applyFundingToSeat p.2 rate)) }

/-! ## Host commit boundary -/

/-- Modelled from the spec: the host runtime's transactional account write
(spec section 7 — "the host provides transactional account writes").  The
buffer state the host persists after an instruction is the processor's
output state on success and the untouched entry state on failure. -/
def hostCommit (entry : Market) (result : Except PErr Market) : Market :=
  match result with
  | .ok m => m
  | .error _ => entry

/-! ## Claim-side reference definitions

These definitions follow the claims' words (spec section 4.I, steps 5-11)
with exact integer arithmetic, for comparison against the embedding of the
source.  They are used only to state refinement theorems and
counterexamples. -/

/-- The claims' `unrealized_pnl = sign(position) * (current_value -
quote_cost_basis)`, in exact integer arithmetic. -/
def specUnrealizedPnl (positionSize : Int) (currentValue quoteCostBasis : Nat) :
    Int :=
  if 0 < positionSize then (currentValue : Int) - (quoteCostBasis : Int)
  else (quoteCostBasis : Int) - (currentValue : Int)

/-- The claims' `required = current_value * maintenance_bps / 10000`, in
exact integer arithmetic. -/
def specRequiredMaintenance (currentValue bps : Nat) : Nat :=
  currentValue * bps / 10000

/-- The claims' `settled_margin = margin ± unrealized_pnl`, saturating at
zero. -/
def specSettledMargin (margin : Nat) (pnl : Int) : Nat :=
  ((margin : Int) + pnl).toNat

/-- The claims' `reward = settled_margin * 250 / 10000`, in exact integer
arithmetic. -/
def specReward (settledMargin : Nat) : Nat :=
  settledMargin * 250 / 10000

/-! ## Concrete states for counterexamples and witnesses -/

/-- A market whose single seat holds a long position of 10 base atoms with
zero cost basis and margin 5, under an oracle mark of `1.2e9 * 10^9` quote
atoms per base atom, so the position's current value is `1.2e19`, above
`i64::MAX`. -/
def cmC1 : Market :=
  { seats := [(7, ⟨5, 0, 10, 0⟩)], bids := [], asks := [],
    oracleMantissa := 1200000000, oracleExpo := 9,
    baseMintDecimals := 6, quoteMintDecimals := 6,
    maintenanceMarginBps := 500, totalLongBaseAtoms := 10,
    totalShortBaseAtoms := 0, cumulativeFunding := 0, lastFundingTs := 0 }

/-- Like `cmC1` with margin 0 and an oracle mark making the current value
exactly `10^19`. -/
def cmC2 : Market :=
  { seats := [(7, ⟨0, 0, 10, 0⟩)], bids := [], asks := [],
    oracleMantissa := 1000000000, oracleExpo := 9,
    baseMintDecimals := 6, quoteMintDecimals := 6,
    maintenanceMarginBps := 500, totalLongBaseAtoms := 10,
    totalShortBaseAtoms := 0, cumulativeFunding := 0, lastFundingTs := 0 }

/-- A market whose single seat holds a short position of 5 base atoms at a
mark of 0.3 quote atoms per base atom, so `mark * |position| = 1.5` and
the two rounding directions differ. -/
def cmC3 : Market :=
  { seats := [(7, ⟨3, 0, -5, 0⟩)], bids := [], asks := [],
    oracleMantissa := 3, oracleExpo := -1,
    baseMintDecimals := 6, quoteMintDecimals := 6,
    maintenanceMarginBps := 10000, totalLongBaseAtoms := 0,
    totalShortBaseAtoms := 5, cumulativeFunding := 0, lastFundingTs := 0 }

/-- A market with no cached oracle price, a best bid of 10 and a best ask
of 20 quote atoms per base atom. -/
def cmC4 : Market :=
  { seats := [], bids := [⟨1, ⟨10, 0⟩, 0⟩], asks := [⟨2, ⟨20, 0⟩, 0⟩],
    oracleMantissa := 0, oracleExpo := 0,
    baseMintDecimals := 6, quoteMintDecimals := 6,
    maintenanceMarginBps := 500, totalLongBaseAtoms := 0,
    totalShortBaseAtoms := 0, cumulativeFunding := 0, lastFundingTs := 0 }

/-- A market with no seats at all. -/
def cmC9 : Market :=
  { seats := [], bids := [], asks := [],
    oracleMantissa := 0, oracleExpo := 0,
    baseMintDecimals := 6, quoteMintDecimals := 6,
    maintenanceMarginBps := 500, totalLongBaseAtoms := 0,
    totalShortBaseAtoms := 0, cumulativeFunding := 0, lastFundingTs := 0 }

/-- C1 counterexample: on `cmC1` the liquidation succeeds and leaves the
target's quote balance at 0, while the claim's exact-arithmetic
settlement (`settled_margin = margin + unrealized_pnl` for a gain of
`1.2e19`, minus the 2.5% reward) predicts a balance of
`11700000000000000005`.  The source computes the PnL with `as i64` casts
and `wrapping_sub`, so a current value above `i64::MAX` turns the gain
into a wrapped loss. -/
theorem claimC1_counterexample :
    process_liquidate cmC1 9 7 =
      .ok { cmC1 with seats := [(7, ⟨0, 0, 0, 0⟩)], totalLongBaseAtoms := 0 } ∧
    specSettledMargin 5 (specUnrealizedPnl 10 12000000000000000000 0) -
      specReward (specSettledMargin 5 (specUnrealizedPnl 10 12000000000000000000 0)) =
      11700000000000000005 ∧
    (11700000000000000005 : Nat) ≠ 0 := by
  refine ⟨by decide, by decide, by decide⟩

/-- C2 counterexample: on `cmC2` the claim's exact-arithmetic equity
(`margin + unrealized_pnl = 10^19`) is at least the claim's requirement
(`current_value * 500 / 10000 = 5 * 10^17`), so the claim predicts a
`NotLiquidatable` failure — yet the liquidation succeeds, because the
source's wrapped PnL is negative and its `checked_mul`-saturated
requirement caps at `u64::MAX / 10000`. -/
theorem claimC2_counterexample :
    isOkE (process_liquidate cmC2 9 7) = true ∧
    (specRequiredMaintenance 10000000000000000000 500 : Int) ≤
      (0 : Int) + specUnrealizedPnl 10 10000000000000000000 0 := by
  refine ⟨by decide, by decide⟩

/-- C3 counterexample: on the short position of `cmC3` the source (which
always rounds the current value down) refuses the liquidation as
`NotLiquidatable`, while the claim's round-up-for-shorts rule would
liquidate the seat. -/
theorem claimC3_counterexample :
    process_liquidate cmC3 9 7 = .error .notLiquidatable ∧
    isOkE (process_liquidate_claimRounding cmC3 9 7) = true := by
  refine ⟨by decide, by decide⟩

/-- C4 counterexample: with no cached oracle and a two-sided book,
`compute_mark_price` returns the best bid (the lower of the two best
prices), not the mid-of-book price 15. -/
theorem claimC4_counterexample :
    compute_mark_price cmC4 = .ok ⟨10, 0⟩ ∧
    2 * priceVal ⟨10, 0⟩ ≠ priceVal ⟨10, 0⟩ + priceVal ⟨20, 0⟩ := by
  constructor
  · decide
  · simp only [priceVal]
    norm_num

set_option maxRecDepth 4000 in
/-- C5 counterexample: at `mark_quote = 10^10 + 1`, `oracle_quote = 1`,
`dt = 3600` every `i128` intermediate is exact and the funding-rate
quotient is `10^19`, outside the `i64` range; the source's `as i64` cast
wraps it to a negative value instead of saturating at `i64::MAX`. -/
theorem claimC5_counterexample :
    Int.tdiv ((10000000001 - 1) * FUNDING_SCALE * 3600) (1 * FUNDING_PERIOD_SECS) =
      10 ^ 19 ∧
    I64_MAX < 10 ^ 19 ∧
    fundingRateScaled 10000000001 1 3600 = .ok (-8446744073709551616) ∧
    (-8446744073709551616 : Int) ≠ I64_MAX := by
  refine ⟨by decide, by decide, by decide, by decide⟩

/-- C6 counterexample: for a seat with position `10^18` and rate `10^10`
the claimed payment is `10^19`, whose saturating subtraction would zero
the margin of 5; the source wraps the payment through `as i64` into a
negative number and saturatingly *credits* the seat instead. -/
theorem claimC6_counterexample :
    applyFundingToSeat ⟨5, 0, 1000000000000000000, 0⟩ 10000000000 =
      ⟨8446744073709551621, 0, 1000000000000000000, 0⟩ ∧
    Int.tdiv (1000000000000000000 * 10000000000) FUNDING_SCALE = 10 ^ 19 ∧
    ((5 : Nat) - ((10 : Int) ^ 19).toNat = 0) ∧
    (8446744073709551621 : Nat) ≠ 0 := by
  refine ⟨by decide, by decide, by decide, by decide⟩

/-- C9 counterexample: liquidating a trader with no seat fails with
`ProgramError::InvalidArgument`, not with the spec taxonomy's distinct
*NotFound* error. -/
theorem claimC9_counterexample :
    process_liquidate cmC9 1 2 = .error .invalidArgument ∧
    PErr.invalidArgument ≠ PErr.notFound := by
  refine ⟨by decide, by decide⟩

/-! ## Association-list lemmas -/

theorem updateSeat_keys (l : List (Nat × ClaimedSeat)) (t : Nat)
    (f : ClaimedSeat → ClaimedSeat) :
    (updateSeat l t f).map Prod.fst = l.map Prod.fst := by
  induction l with
  | nil => rfl
  | cons head tail ih =>
    obtain ⟨k, s⟩ := head
    by_cases h : k = t <;> simp [updateSeat, h, ih]

theorem seatLookup_none_of_not_mem (l : List (Nat × ClaimedSeat)) (t : Nat)
    (h : t ∉ l.map Prod.fst) : seatLookup l t = none := by
  induction l with
  | nil => rfl
  | cons head tail ih =>
    obtain ⟨k, s⟩ := head
    simp only [List.map_cons, List.mem_cons] at h
    push_neg at h
    have hk : ¬k = t := fun hk => h.1 hk.symm
    simp [seatLookup, hk, ih h.2]

theorem seatLookup_updateSeat_self (l : List (Nat × ClaimedSeat)) (t : Nat)
    (f : ClaimedSeat → ClaimedSeat) (s : ClaimedSeat)
    (h : seatLookup l t = some s) :
    seatLookup (updateSeat l t f) t = some (f s) := by
  induction l with
  | nil => simp [seatLookup] at h
  | cons head tail ih =>
    obtain ⟨k, a⟩ := head
    by_cases hk : k = t
    · simp only [seatLookup, if_pos hk] at h
      cases h
      simp [updateSeat, seatLookup, hk]
    · simp only [seatLookup, if_neg hk] at h
      simp [updateSeat, seatLookup, hk, ih h]

theorem seatLookup_updateSeat_none (l : List (Nat × ClaimedSeat)) (t k : Nat)
    (f : ClaimedSeat → ClaimedSeat) (h : seatLookup l k = none) :
    seatLookup (updateSeat l t f) k = none := by
  induction l with
  | nil => rfl
  | cons head tail ih =>
    obtain ⟨k0, a⟩ := head
    by_cases hk0 : k0 = k
    · simp [seatLookup, hk0] at h
    · simp only [seatLookup, if_neg hk0] at h
      by_cases ht : k0 = t
      · simp only [updateSeat, if_pos ht, seatLookup, if_neg hk0]
        exact ih h
      · simp only [updateSeat, if_neg ht, seatLookup, if_neg hk0]
        exact ih h

theorem seatLookup_updateSeat_ne (l : List (Nat × ClaimedSeat)) (t k : Nat)
    (f : ClaimedSeat → ClaimedSeat) (hk : ¬k = t) :
    seatLookup (updateSeat l t f) k = seatLookup l k := by
  induction l with
  | nil => rfl
  | cons head tail ih =>
    obtain ⟨k0, a⟩ := head
    by_cases ht : k0 = t
    · have hkk : ¬k0 = k := fun h => hk (h ▸ ht)
      simp only [updateSeat, if_pos ht, seatLookup, if_neg hkk]
      exact ih
    · simp only [updateSeat, if_neg ht, seatLookup]
      by_cases hkk : k0 = k
      · simp only [if_pos hkk]
      · simp only [if_neg hkk]
        exact ih

theorem updateSeat_absent (l : List (Nat × ClaimedSeat)) (t : Nat)
    (f : ClaimedSeat → ClaimedSeat) (h : seatLookup l t = none) :
    updateSeat l t f = l := by
  induction l with
  | nil => rfl
  | cons head tail ih =>
    obtain ⟨k, a⟩ := head
    by_cases hk : k = t
    · simp [seatLookup, hk] at h
    · simp only [seatLookup, if_neg hk] at h
      simp [updateSeat, hk, ih h]

theorem sumQuote_updateSeat (l : List (Nat × ClaimedSeat)) (t : Nat)
    (f : ClaimedSeat → ClaimedSeat) (s : ClaimedSeat)
    (hnd : (l.map Prod.fst).Nodup) (hl : seatLookup l t = some s) :
    sumQuote (updateSeat l t f) + s.quoteWithdrawable =
      sumQuote l + (f s).quoteWithdrawable := by
  induction l with
  | nil => simp [seatLookup] at hl
  | cons head tail ih =>
    obtain ⟨k, a⟩ := head
    simp only [List.map_cons, List.nodup_cons] at hnd
    by_cases hk : k = t
    · simp only [seatLookup, if_pos hk] at hl
      cases hl
      have htail : seatLookup tail t = none :=
        seatLookup_none_of_not_mem tail t (hk ▸ hnd.1)
      simp [updateSeat, hk, updateSeat_absent tail t f htail, sumQuote]
      omega
    · simp only [seatLookup, if_neg hk] at hl
      have := ih hnd.2 hl
      simp only [updateSeat, if_neg hk, sumQuote, List.map_cons, List.sum_cons] at *
      omega

/-! ## Liquidation pipeline characterization -/

/-- Characterization of a successful liquidation: with the target's seat,
mark price and current value given, and the equity strictly below the
maintenance requirement, `process_liquidate` settles exactly as the source
does. -/
theorem liquidate_ok_spec {m : Market} {liquidator target : Nat}
    {seat : ClaimedSeat} {mark : QuoteAtomsPerBaseAtom} {cv : Nat}
    (hseat : seatLookup m.seats target = some seat)
    (hpos : ¬seat.positionSize = 0)
    (hmark : compute_mark_price (cancelAllOrders m target) = .ok mark)
    (hcv : liqCurrentValue mark seat.positionSize.natAbs = some cv)
    (hliq : (marginOf (cancelAllOrders m target) target : Int) +
        liqUnrealizedPnl seat.positionSize cv seat.quoteCostBasis <
      (liqRequiredMaintenance cv m.maintenanceMarginBps : Int)) :
    process_liquidate m liquidator target = .ok
      (let mc := cancelAllOrders m target
      let settled := liqSettledMargin (marginOf mc target)
        (liqUnrealizedPnl seat.positionSize cv seat.quoteCostBasis)
      let reward := liqReward settled
      let seats1 := updateSeat mc.seats target (fun s =>
        { s with
          positionSize := 0
          quoteCostBasis := 0
          quoteWithdrawable := settled - reward })
      let seats2 :=
        if 0 < reward then
          updateSeat seats1 liquidator (fun s =>
            { s with quoteWithdrawable := satAddU64 s.quoteWithdrawable reward })
        else seats1
      if 0 < seat.positionSize then
        { mc with
          seats := seats2
          totalLongBaseAtoms := mc.totalLongBaseAtoms - seat.positionSize.natAbs }
      else
        { mc with
          seats := seats2
          totalShortBaseAtoms := mc.totalShortBaseAtoms - seat.positionSize.natAbs }) := by
  have hnot : ¬((liqRequiredMaintenance cv m.maintenanceMarginBps : Int) ≤
      (marginOf (cancelAllOrders m target) target : Int) +
        liqUnrealizedPnl seat.positionSize cv seat.quoteCostBasis) :=
    not_le.mpr hliq
  simp only [process_liquidate, hseat, hpos, hmark, hcv, hnot, if_false, ite_false]
  split <;> rfl

/-- Characterization of the `NotLiquidatable` refusal: equity at or above
the maintenance requirement. -/
theorem liquidate_notLiquidatable_spec {m : Market} {liquidator target : Nat}
    {seat : ClaimedSeat} {mark : QuoteAtomsPerBaseAtom} {cv : Nat}
    (hseat : seatLookup m.seats target = some seat)
    (hpos : ¬seat.positionSize = 0)
    (hmark : compute_mark_price (cancelAllOrders m target) = .ok mark)
    (hcv : liqCurrentValue mark seat.positionSize.natAbs = some cv)
    (hliq : (liqRequiredMaintenance cv m.maintenanceMarginBps : Int) ≤
      (marginOf (cancelAllOrders m target) target : Int) +
        liqUnrealizedPnl seat.positionSize cv seat.quoteCostBasis) :
    process_liquidate m liquidator target = .error .notLiquidatable := by
  simp only [process_liquidate, hseat, hpos, hmark, hcv, hliq, if_true, ite_true,
    if_false, ite_false]

/-! ## Claim theorems -/

/-- C1 (amended): for every liquidation that passes the liquidatability
check the operation settles as follows, where `unrealized_pnl` is the
source's *wrapping* 64-bit PnL (`liqUnrealizedPnl`): `settled_margin` is
`margin` saturatingly increased by a nonnegative PnL or saturatingly
decreased (floor 0) by `|pnl|`; `reward` is `settled_margin * 250 / 10000`
when the product fits `u64` and 0 on `checked_mul` overflow; the target's
position and cost basis are zeroed and its quote balance set to
`settled_margin - reward`; the reward is *saturatingly* credited to the
liquidator's seat when the reward is positive (a no-op if the liquidator
has no seat); and the side's total base atoms are *saturatingly*
decremented by `|position|`. -/
theorem claimC1_amended {m : Market} {liquidator target : Nat}
    {seat : ClaimedSeat} {mark : QuoteAtomsPerBaseAtom} {cv : Nat}
    (hseat : seatLookup m.seats target = some seat)
    (hpos : ¬seat.positionSize = 0)
    (hmark : compute_mark_price (cancelAllOrders m target) = .ok mark)
    (hcv : liqCurrentValue mark seat.positionSize.natAbs = some cv)
    (hliq : (marginOf (cancelAllOrders m target) target : Int) +
        liqUnrealizedPnl seat.positionSize cv seat.quoteCostBasis <
      (liqRequiredMaintenance cv m.maintenanceMarginBps : Int)) :
    process_liquidate m liquidator target = .ok
      (let mc := cancelAllOrders m target
      let settled := liqSettledMargin (marginOf mc target)
        (liqUnrealizedPnl seat.positionSize cv seat.quoteCostBasis)
      let reward := liqReward settled
      let seats1 := updateSeat mc.seats target (fun s =>
        { s with
          positionSize := 0
          quoteCostBasis := 0
          quoteWithdrawable := settled - reward })
      let seats2 :=
        if 0 < reward then
          updateSeat seats1 liquidator (fun s =>
            { s with quoteWithdrawable := satAddU64 s.quoteWithdrawable reward })
        else seats1
      if 0 < seat.positionSize then
        { mc with
          seats := seats2
          totalLongBaseAtoms := mc.totalLongBaseAtoms - seat.positionSize.natAbs }
      else
        { mc with
          seats := seats2
          totalShortBaseAtoms := mc.totalShortBaseAtoms - seat.positionSize.natAbs }) :=
  liquidate_ok_spec hseat hpos hmark hcv hliq

/-- Witness for C1: a long of 2 base atoms with cost basis 60, margin 50
and mark 30 settles at `settled = 50`, `reward = 1`; the liquidator's seat
is credited and the long total drops to zero. -/
def wmC1 : Market :=
  { seats := [(7, ⟨50, 0, 2, 60⟩), (9, ⟨10, 0, 0, 0⟩)],
    bids := [], asks := [],
    oracleMantissa := 30, oracleExpo := 0,
    baseMintDecimals := 6, quoteMintDecimals := 6,
    maintenanceMarginBps := 20000, totalLongBaseAtoms := 2,
    totalShortBaseAtoms := 0, cumulativeFunding := 0, lastFundingTs := 0 }

theorem claimC1_witness :
    process_liquidate wmC1 9 7 =
      .ok { wmC1 with
        seats := [(7, ⟨49, 0, 0, 0⟩), (9, ⟨11, 0, 0, 0⟩)],
        totalLongBaseAtoms := 0 } :=
  (@claimC1_amended wmC1 9 7 ⟨50, 0, 2, 60⟩ ⟨30, 0⟩ 60
    (by decide) (by decide) (by decide) (by decide) (by decide)).trans (by decide)

/-- C2 (amended): for a trader with a seat and a non-zero position, and a
mark price and current value that compute successfully, liquidation fails
with `NotLiquidatable` exactly when `margin + unrealized_pnl ≥ required`,
where `unrealized_pnl` is the source's wrapping 64-bit PnL and `required`
is `current_value * maintenance_bps / 10000` computed with a `u64`
`checked_mul` that falls back to `u64::MAX` on overflow.  In particular a
seat whose equity exactly equals the requirement is not liquidatable. -/
theorem claimC2_amended {m : Market} {liquidator target : Nat}
    {seat : ClaimedSeat} {mark : QuoteAtomsPerBaseAtom} {cv : Nat}
    (hseat : seatLookup m.seats target = some seat)
    (hpos : ¬seat.positionSize = 0)
    (hmark : compute_mark_price (cancelAllOrders m target) = .ok mark)
    (hcv : liqCurrentValue mark seat.positionSize.natAbs = some cv) :
    process_liquidate m liquidator target = .error .notLiquidatable ↔
      (liqRequiredMaintenance cv m.maintenanceMarginBps : Int) ≤
        (marginOf (cancelAllOrders m target) target : Int) +
          liqUnrealizedPnl seat.positionSize cv seat.quoteCostBasis := by
  constructor
  · intro h
    by_contra hc
    have hok := @liquidate_ok_spec m liquidator target seat mark cv
      hseat hpos hmark hcv (not_le.mp hc)
    rw [h] at hok
    exact absurd hok (by simp)
  · intro h
    exact liquidate_notLiquidatable_spec hseat hpos hmark hcv h

/-- Witness for C2: margin 1000 against a requirement of 0 is not
liquidatable. -/
def wmC2 : Market :=
  { seats := [(7, ⟨1000, 0, 2, 60⟩)], bids := [], asks := [],
    oracleMantissa := 30, oracleExpo := 0,
    baseMintDecimals := 6, quoteMintDecimals := 6,
    maintenanceMarginBps := 100, totalLongBaseAtoms := 2,
    totalShortBaseAtoms := 0, cumulativeFunding := 0, lastFundingTs := 0 }

theorem claimC2_witness :
    process_liquidate wmC2 9 7 = .error .notLiquidatable :=
  (@claimC2_amended wmC2 9 7 ⟨1000, 0, 2, 60⟩ ⟨30, 0⟩ 60
    (by decide) (by decide) (by decide) (by decide)).mpr (by decide)

/-- C3 (amended): the liquidation `current_value` is
`quote_for_base(mark, |position|)` rounded *down* for long and short
positions alike (the claimed round-down-for-longs rule holds, so on a
market whose target holds a long position the pipeline coincides with the
claim's sign-dependent variant; the round-up-for-shorts half is refuted by
the counterexample). -/
theorem claimC3_amended :
    (∀ (mark : QuoteAtomsPerBaseAtom) (absPosition : Nat),
      liqCurrentValue mark absPosition =
        checked_quote_for_base mark absPosition false) ∧
    ∀ (m : Market) (liquidator target : Nat),
      (∀ seat, seatLookup m.seats target = some seat → 0 < seat.positionSize) →
      process_liquidate m liquidator target =
        process_liquidate_claimRounding m liquidator target := by
  refine ⟨fun mark a => rfl, fun m liquidator target hlong => ?_⟩
  unfold process_liquidate process_liquidate_claimRounding
  cases hs : seatLookup m.seats target with
  | none => rfl
  | some seat =>
    have h := hlong seat hs
    have hdec : decide (seat.positionSize < 0) = false := by
      simp only [decide_eq_false_iff_not, not_lt]
      omega
    simp only [liqCurrentValue, hdec]

theorem claimC3_witness :
    process_liquidate wmC1 9 7 = process_liquidate_claimRounding wmC1 9 7 :=
  claimC3_amended.2 wmC1 9 7 (fun seat hs => by
    simp only [wmC1, seatLookup, if_pos rfl] at hs
    injection hs with h
    rw [← h]
    decide)

/-- C7: every operation is all-or-nothing at the instruction boundary.
The host's transactional account write (`hostCommit`, modelled from the
spec) persists the entry state whenever the processor returns a failure —
in particular for a liquidation failing `NotLiquidatable` after its
order-cancelling preliminary steps, whose in-core mutations are discarded
with the rest of the failed instruction. -/
theorem claimC7 :
    (∀ (m : Market) (liquidator target : Nat) (e : PErr),
      process_liquidate m liquidator target = .error e →
      hostCommit m (process_liquidate m liquidator target) = m) ∧
    ∀ (m : Market) (oracleData : List Nat) (now : Int) (e : PErr),
      process_crank_funding m oracleData now = .error e →
      hostCommit m (process_crank_funding m oracleData now) = m := by
  constructor
  · intro m liquidator target e h
    rw [h]
    rfl
  · intro m oracleData now e h
    rw [h]
    rfl

theorem claimC7_witness :
    hostCommit cmC9 (process_liquidate cmC9 1 2) = cmC9 :=
  claimC7.1 cmC9 1 2 .invalidArgument (by decide)

/-- C4 (amended): `compute_mark_price` returns the oracle-derived price
whenever the cached oracle price is present *and* convertible (the
truncating normalization leaves a mantissa fitting `u32` with an exponent
in the `i8` range); otherwise it falls back to the book, returning the
*lower* of best bid and best ask when both sides exist (the best bid on
an uncrossed book) — not their midpoint — or the single side's best; it
yields an error only when the book is empty, in which case the funding
crank records the oracle cache, stamps the timestamp and returns
successfully. -/
theorem claimC4_amended :
    (∀ (m : Market) (p : QuoteAtomsPerBaseAtom),
      oracleMarkPrice m = some p → compute_mark_price m = .ok p) ∧
    (∀ m : Market, 0 < m.oracleMantissa →
      ∀ mm : Nat, ∀ e : Int,
      normalizeMantissa m.oracleMantissa
        (m.oracleExpo + (m.quoteMintDecimals : Int) - (m.baseMintDecimals : Int)) =
          (mm, e) →
      mm ≤ U32_MAX → -128 ≤ e → e ≤ 127 →
      oracleMarkPrice m = some ⟨mm, e⟩) ∧
    (∀ m : Market, oracleMarkPrice m = none →
      ∀ b a : Order, bestBidOrder m.bids = some b → bestAskOrder m.asks = some a →
      compute_mark_price m =
        .ok (if priceLeB b.price a.price then b.price else a.price)) ∧
    (∀ m : Market, oracleMarkPrice m = none →
      ∀ b : Order, bestBidOrder m.bids = some b → bestAskOrder m.asks = none →
      compute_mark_price m = .ok b.price) ∧
    (∀ m : Market, oracleMarkPrice m = none →
      ∀ a : Order, bestBidOrder m.bids = none → bestAskOrder m.asks = some a →
      compute_mark_price m = .ok a.price) ∧
    (∀ (m : Market) (e : PErr), compute_mark_price m = .error e →
      bestBidOrder m.bids = none ∧ bestAskOrder m.asks = none) ∧
    (∀ (m : Market) (oracleData : List Nat) (now price expo : Int) (conf : Nat),
      read_pyth_price oracleData = .ok (price, expo, conf) →
      ¬m.lastFundingTs = 0 →
      0 < satSubI64 now m.lastFundingTs →
      ∀ e : PErr,
      compute_mark_price
        { m with oracleMantissa := price.toNat, oracleExpo := expo } = .error e →
      process_crank_funding m oracleData now =
        .ok { m with
          oracleMantissa := price.toNat
          oracleExpo := expo
          lastFundingTs := now }) := by
  refine ⟨?_, ?_, ?_, ?_, ?_, ?_, ?_⟩
  · intro m p h
    simp only [compute_mark_price, h]
  · intro m hm mm e hnorm h1 h2 h3
    simp only [oracleMarkPrice, if_pos hm, hnorm]
    simp [h1, h2, h3]
  · intro m h b a hb ha
    simp only [compute_mark_price, h, hb, ha]
  · intro m h b hb ha
    simp only [compute_mark_price, h, hb, ha]
  · intro m h a hb ha
    simp only [compute_mark_price, h, hb, ha]
  · intro m e h
    unfold compute_mark_price at h
    cases ho : oracleMarkPrice m with
    | some p => rw [ho] at h; exact absurd h (by simp)
    | none =>
      rw [ho] at h
      cases hb : bestBidOrder m.bids with
      | some b =>
        cases ha : bestAskOrder m.asks with
        | some a => rw [hb, ha] at h; exact absurd h (by simp)
        | none => rw [hb, ha] at h; exact absurd h (by simp)
      | none =>
        cases ha : bestAskOrder m.asks with
        | some a => rw [hb, ha] at h; exact absurd h (by simp)
        | none => exact ⟨hb.symm.trans hb, ha.symm.trans ha⟩

  · intro m oracleData now price expo conf hread hts hdt e herr
    have hdt2 : ¬satSubI64 now m.lastFundingTs ≤ 0 := not_le.mpr hdt
    simp only [process_crank_funding, hread, hts, hdt2, herr, if_false, ite_false]

/-- Oracle account bytes with magic `0xa1b2c3d4`, exponent `-200`, price
100, confidence 7, trading status: a valid read whose cached price cannot
convert (adjusted exponent below `i8::MIN`). -/
def oracleBytesC4 : List Nat :=
  [0xd4, 0xc3, 0xb2, 0xa1] ++ List.replicate 16 0 ++
    [0x38, 0xff, 0xff, 0xff] ++ List.replicate 184 0 ++
    ([100] ++ List.replicate 7 0) ++ ([7] ++ List.replicate 7 0) ++
    [1, 0, 0, 0] ++ List.replicate 12 0

/-- A market with an empty book and a pending funding timestamp, on which
the crank's mark-price computation fails and only the oracle cache and
timestamp change. -/
def wmC4 : Market :=
  { seats := [(7, ⟨50, 0, 2, 60⟩)], bids := [], asks := [],
    oracleMantissa := 0, oracleExpo := 0,
    baseMintDecimals := 6, quoteMintDecimals := 6,
    maintenanceMarginBps := 500, totalLongBaseAtoms := 2,
    totalShortBaseAtoms := 0, cumulativeFunding := 0, lastFundingTs := 50 }

set_option maxRecDepth 8000 in
theorem claimC4_witness :
    process_crank_funding wmC4 oracleBytesC4 60 =
      .ok { wmC4 with
        oracleMantissa := 100
        oracleExpo := -200
        lastFundingTs := 60 } :=
  (claimC4_amended.2.2.2.2.2.2 wmC4 oracleBytesC4 60 100 (-200) 7
    (by decide) (by decide) (by decide) .invalidPerpsOperation (by decide)).trans
    (by decide)

/-- An `as i64` cast is the identity on values already in the `i64`
range. -/
theorem wrapI64_eq_self {x : Int} (h1 : I64_MIN ≤ x) (h2 : x ≤ I64_MAX) :
    wrapI64 x = x := by
  unfold wrapI64
  unfold I64_MIN at h1
  unfold I64_MAX at h2
  rw [Int.emod_eq_of_lt (by omega) (by omega)]
  omega

/-- A wrapping `i128` operation is exact on results already in the `i128`
range. -/
theorem wrapI128_eq_self {x : Int} (h1 : I128_MIN ≤ x) (h2 : x ≤ I128_MAX) :
    wrapI128 x = x := by
  unfold wrapI128
  unfold I128_MIN at h1
  unfold I128_MAX at h2
  rw [Int.emod_eq_of_lt (by omega) (by omega)]
  omega

/-- C5 (amended): on the region where every `i128` intermediate of
`crank_funding.rs` lines 180-183 is exact (difference, both products and
the denominator in the `i128` range, non-zero oracle quote), the funding
rate is the `as i64`-wrapped value of
`((mark_quote - oracle_quote) * 10^9 * dt) / (oracle_quote * 3600)`
(truncating division), and it equals that quotient exactly whenever the
quotient also lies in the `i64` range — a quotient outside the range is
wrapped to its low 64 bits, not saturated.  The rate is added to the
header's `cumulative_funding` with a saturating add and the last-funding
timestamp is set to `now`. -/
theorem claimC5_amended :
    (∀ markQuote oracleQuote timeElapsed : Int,
      I128_MIN ≤ markQuote - oracleQuote → markQuote - oracleQuote ≤ I128_MAX →
      I128_MIN ≤ (markQuote - oracleQuote) * FUNDING_SCALE →
      (markQuote - oracleQuote) * FUNDING_SCALE ≤ I128_MAX →
      I128_MIN ≤ (markQuote - oracleQuote) * FUNDING_SCALE * timeElapsed →
      (markQuote - oracleQuote) * FUNDING_SCALE * timeElapsed ≤ I128_MAX →
      I128_MIN ≤ oracleQuote * FUNDING_PERIOD_SECS →
      oracleQuote * FUNDING_PERIOD_SECS ≤ I128_MAX →
      ¬oracleQuote = 0 →
      fundingRateScaled markQuote oracleQuote timeElapsed =
        .ok (wrapI64 (Int.tdiv ((markQuote - oracleQuote) * FUNDING_SCALE * timeElapsed)
          (oracleQuote * FUNDING_PERIOD_SECS)))) ∧
    (∀ markQuote oracleQuote timeElapsed : Int,
      I128_MIN ≤ markQuote - oracleQuote → markQuote - oracleQuote ≤ I128_MAX →
      I128_MIN ≤ (markQuote - oracleQuote) * FUNDING_SCALE →
      (markQuote - oracleQuote) * FUNDING_SCALE ≤ I128_MAX →
      I128_MIN ≤ (markQuote - oracleQuote) * FUNDING_SCALE * timeElapsed →
      (markQuote - oracleQuote) * FUNDING_SCALE * timeElapsed ≤ I128_MAX →
      I128_MIN ≤ oracleQuote * FUNDING_PERIOD_SECS →
      oracleQuote * FUNDING_PERIOD_SECS ≤ I128_MAX →
      ¬oracleQuote = 0 →
      I64_MIN ≤ Int.tdiv ((markQuote - oracleQuote) * FUNDING_SCALE * timeElapsed)
          (oracleQuote * FUNDING_PERIOD_SECS) →
      Int.tdiv ((markQuote - oracleQuote) * FUNDING_SCALE * timeElapsed)
          (oracleQuote * FUNDING_PERIOD_SECS) ≤ I64_MAX →
      fundingRateScaled markQuote oracleQuote timeElapsed =
        .ok (Int.tdiv ((markQuote - oracleQuote) * FUNDING_SCALE * timeElapsed)
          (oracleQuote * FUNDING_PERIOD_SECS))) ∧
    (∀ (m : Market) (oracleData : List Nat) (now price expo : Int) (conf : Nat)
      (mark : QuoteAtomsPerBaseAtom) (markQuote : Nat) (oracleQuote rate : Int),
      read_pyth_price oracleData = .ok (price, expo, conf) →
      ¬m.lastFundingTs = 0 →
      0 < satSubI64 now m.lastFundingTs →
      compute_mark_price
        { m with oracleMantissa := price.toNat, oracleExpo := expo } = .ok mark →
      checked_quote_for_base mark 1000000000 false = some markQuote →
      oracleQuoteValue price
        (expo + (m.quoteMintDecimals : Int) - (m.baseMintDecimals : Int) + 9) =
          .ok oracleQuote →
      0 < oracleQuote →
      fundingRateScaled (markQuote : Int) oracleQuote (satSubI64 now m.lastFundingTs) =
        .ok rate →
      process_crank_funding m oracleData now = .ok
        { m with
          oracleMantissa := price.toNat
          oracleExpo := expo
          cumulativeFunding := satAddI64 m.cumulativeFunding rate
          lastFundingTs := now
          seats := m.seats.map (fun p => (p.1, applyFundingToSeat p.2 rate)) }) := by
  have hmain : ∀ markQuote oracleQuote timeElapsed : Int,
      I128_MIN ≤ markQuote - oracleQuote → markQuote - oracleQuote ≤ I128_MAX →
      I128_MIN ≤ (markQuote - oracleQuote) * FUNDING_SCALE →
      (markQuote - oracleQuote) * FUNDING_SCALE ≤ I128_MAX →
      I128_MIN ≤ (markQuote - oracleQuote) * FUNDING_SCALE * timeElapsed →
      (markQuote - oracleQuote) * FUNDING_SCALE * timeElapsed ≤ I128_MAX →
      I128_MIN ≤ oracleQuote * FUNDING_PERIOD_SECS →
      oracleQuote * FUNDING_PERIOD_SECS ≤ I128_MAX →
      ¬oracleQuote = 0 →
      fundingRateScaled markQuote oracleQuote timeElapsed =
        .ok (wrapI64 (Int.tdiv ((markQuote - oracleQuote) * FUNDING_SCALE * timeElapsed)
          (oracleQuote * FUNDING_PERIOD_SECS))) := by
    intro markQuote oracleQuote timeElapsed h1 h2 h3 h4 h5 h6 h7 h8 h9
    have hden : ¬oracleQuote * FUNDING_PERIOD_SECS = 0 := by
      unfold FUNDING_PERIOD_SECS
      omega
    have hmd : ¬((markQuote - oracleQuote) * FUNDING_SCALE * timeElapsed = I128_MIN ∧
        oracleQuote * FUNDING_PERIOD_SECS = -1) := by
      intro hc
      have := hc.2
      unfold FUNDING_PERIOD_SECS at this
      omega
    simp only [fundingRateScaled, wrapI128_eq_self h1 h2, wrapI128_eq_self h3 h4,
      wrapI128_eq_self h5 h6, wrapI128_eq_self h7 h8, i128Div,
      if_neg hden, if_neg hmd]
  refine ⟨hmain, ?_, ?_⟩
  · intro markQuote oracleQuote timeElapsed h1 h2 h3 h4 h5 h6 h7 h8 h9 h10 h11
    rw [hmain markQuote oracleQuote timeElapsed h1 h2 h3 h4 h5 h6 h7 h8 h9,
      wrapI64_eq_self h10 h11]
  · intro m oracleData now price expo conf mark markQuote oracleQuote rate
      hread hts hdt hmark hmq hoqv hoq hrate
    have hdt2 : ¬satSubI64 now m.lastFundingTs ≤ 0 := not_le.mpr hdt
    have hoq2 : ¬oracleQuote ≤ 0 := not_le.mpr hoq
    simp only [process_crank_funding, hread, hts, hdt2, hmark, hmq, hoqv, hoq2,
      hrate, if_false, ite_false]

/-- Witness for C5: a mark one percent above the oracle for a full hour
gives rate `10^7`, matching the spec's scenario 6; every `i128`
intermediate is exact and the quotient lies in the `i64` range. -/
theorem claimC5_witness :
    fundingRateScaled 101 100 3600 = .ok 10000000 :=
  (claimC5_amended.2.1 101 100 3600 (by decide) (by decide) (by decide) (by decide)
    (by decide) (by decide) (by decide) (by decide) (by decide) (by decide)
    (by decide)).trans (by decide)

/-- Oracle account bytes with exponent 130, price 100, confidence 7,
trading status: a valid read whose adjusted reference exponent (139)
overflows `10i128.pow`. -/
def oracleBytesOverflow : List Nat :=
  [0xd4, 0xc3, 0xb2, 0xa1] ++ List.replicate 16 0 ++
    [130, 0, 0, 0] ++ List.replicate 184 0 ++
    ([100] ++ List.replicate 7 0) ++ ([7] ++ List.replicate 7 0) ++
    [1, 0, 0, 0] ++ List.replicate 12 0

/-- A market with a one-sided book and a pending funding timestamp. -/
def wmOverflow : Market :=
  { seats := [(7, ⟨50, 0, 2, 60⟩)], bids := [⟨1, ⟨10, 0⟩, 0⟩], asks := [],
    oracleMantissa := 0, oracleExpo := 0,
    baseMintDecimals := 6, quoteMintDecimals := 6,
    maintenanceMarginBps := 500, totalLongBaseAtoms := 2,
    totalShortBaseAtoms := 0, cumulativeFunding := 0, lastFundingTs := 50 }

set_option maxRecDepth 8000 in
/-- At oracle price 100 with exponent 130 the cached price cannot convert
(exponent 139 above `i8::MAX`), the mark falls back to the one-sided book,
and the reference-quote conversion's `10i128.pow(139)` wraps to exactly 0:
the oracle quote is 0, so the crank stamps the timestamp and returns
without touching any seat — no funding settlement happens. -/
theorem crank_i128_overflow_timestamp_only :
    pow10i128 139 = 0 ∧
    process_crank_funding wmOverflow oracleBytesOverflow 60 =
      .ok { wmOverflow with
        oracleMantissa := 100
        oracleExpo := 130
        lastFundingTs := 60 } := by
  refine ⟨by decide, by decide⟩

/-- C6 (amended): a settlement step of the funding crank leaves a
zero-position seat unchanged; for a non-zero position the payment is the
`as i64`-wrapped value of `position_size * rate / 10^9` (equal to that
quotient exactly when it lies in the `i64` range), and a nonnegative
payment is saturatingly subtracted from the seat's quote-withdrawable
balance while a negative payment is saturatingly credited — so longs pay
a positive in-range rate and shorts receive it. -/
theorem claimC6_amended :
    (∀ (s : ClaimedSeat) (rate : Int), s.positionSize = 0 →
      applyFundingToSeat s rate = s) ∧
    (∀ positionSize rate : Int,
      I64_MIN ≤ Int.tdiv (positionSize * rate) FUNDING_SCALE →
      Int.tdiv (positionSize * rate) FUNDING_SCALE ≤ I64_MAX →
      fundingPayment positionSize rate =
        Int.tdiv (positionSize * rate) FUNDING_SCALE) ∧
    (∀ (s : ClaimedSeat) (rate : Int), ¬s.positionSize = 0 →
      0 ≤ fundingPayment s.positionSize rate →
      applyFundingToSeat s rate =
        { s with quoteWithdrawable :=
            s.quoteWithdrawable - (fundingPayment s.positionSize rate).toNat }) ∧
    (∀ (s : ClaimedSeat) (rate : Int), ¬s.positionSize = 0 →
      fundingPayment s.positionSize rate < 0 →
      applyFundingToSeat s rate =
        { s with quoteWithdrawable :=
            (satAddU64 s.quoteWithdrawable
              (fundingPayment s.positionSize rate).natAbs) }) := by
  refine ⟨?_, ?_, ?_, ?_⟩
  · intro s rate h
    simp [applyFundingToSeat, h]
  · intro positionSize rate h1 h2
    exact wrapI64_eq_self h1 h2
  · intro s rate h hp
    simp only [applyFundingToSeat, if_neg h, if_pos hp]
  · intro s rate h hp
    simp only [applyFundingToSeat, if_neg h, if_neg (not_le.mpr hp)]

/-- Witness for C6: a long of 1000 base atoms at rate `10^7` pays 10 quote
atoms. -/
theorem claimC6_witness :
    applyFundingToSeat ⟨100, 0, 1000, 0⟩ 10000000 = ⟨90, 0, 1000, 0⟩ :=
  (claimC6_amended.2.2.1 ⟨100, 0, 1000, 0⟩ 10000000 (by decide) (by decide)).trans
    (by decide)

/-- `readLE` depends only on the bytes of the window it reads. -/
theorem readLE_congr (d1 d2 : List Nat) :
    ∀ (off len : Nat),
    (∀ i, i < len → d1.getD (off + i) 0 = d2.getD (off + i) 0) →
    readLE d1 off len = readLE d2 off len := by
  intro off len
  induction len generalizing off with
  | zero => intro h; rfl
  | succ n ih =>
    intro h
    simp only [readLE]
    have h0 : d1.getD off 0 = d2.getD off 0 := by
      have := h 0 (by omega)
      simpa using this
    have hrest : readLE d1 (off + 1) n = readLE d2 (off + 1) n := by
      apply ih
      intro i hi
      have := h (i + 1) (by omega)
      have heq : off + (i + 1) = off + 1 + i := by omega
      rw [heq] at this
      exact this
    rw [h0, hrest]

/-- C8: the oracle read fails (with the single oracle error,
`ManifestError::InvalidPerpsOperation`, the realization of the spec's
*InvalidOracle*) exactly when the data is shorter than 240 bytes, the
`u32` magic at offset 0 differs from `0xa1b2c3d4`, the `u32` status at
offset 224 differs from 1, or the `i64` aggregate price at offset 208 is
not positive; otherwise it returns the price, the `i32` exponent at
offset 20 and the `u64` confidence at offset 216; and the result depends
on nothing but the length and those five byte windows. -/
theorem claimC8 (data : List Nat) (_hbytes : ∀ b ∈ data, b < 256) :
    (read_pyth_price data = .error .invalidPerpsOperation ↔
      data.length < PYTH_MIN_DATA_LEN ∨
      readLE data 0 4 ≠ PYTH_MAGIC ∨
      readLE data PYTH_AGG_STATUS_OFFSET 4 ≠ PYTH_STATUS_TRADING ∨
      u64AsI64 (readLE data PYTH_AGG_PRICE_OFFSET 8) ≤ 0) ∧
    (¬(data.length < PYTH_MIN_DATA_LEN ∨
        readLE data 0 4 ≠ PYTH_MAGIC ∨
        readLE data PYTH_AGG_STATUS_OFFSET 4 ≠ PYTH_STATUS_TRADING ∨
        u64AsI64 (readLE data PYTH_AGG_PRICE_OFFSET 8) ≤ 0) →
      read_pyth_price data = .ok
        (u64AsI64 (readLE data PYTH_AGG_PRICE_OFFSET 8),
          u32AsI32 (readLE data PYTH_EXPO_OFFSET 4),
          readLE data PYTH_AGG_CONF_OFFSET 8)) ∧
    (∀ d2 : List Nat, d2.length = data.length →
      (∀ i, i < 4 → d2.getD i 0 = data.getD i 0) →
      (∀ i, i < 4 → d2.getD (PYTH_EXPO_OFFSET + i) 0 = data.getD (PYTH_EXPO_OFFSET + i) 0) →
      (∀ i, i < 8 →
        d2.getD (PYTH_AGG_PRICE_OFFSET + i) 0 = data.getD (PYTH_AGG_PRICE_OFFSET + i) 0) →
      (∀ i, i < 8 →
        d2.getD (PYTH_AGG_CONF_OFFSET + i) 0 = data.getD (PYTH_AGG_CONF_OFFSET + i) 0) →
      (∀ i, i < 4 →
        d2.getD (PYTH_AGG_STATUS_OFFSET + i) 0 = data.getD (PYTH_AGG_STATUS_OFFSET + i) 0) →
      read_pyth_price d2 = read_pyth_price data) := by
  refine ⟨?_, ?_, ?_⟩
  · simp only [read_pyth_price]
    split_ifs with h1 h2 h3 h4 <;> simp_all
  · intro h
    push_neg at h
    obtain ⟨h1, h2, h3, h4⟩ := h
    simp [read_pyth_price, h2, h3, not_lt.mpr h1, not_le.mpr h4]
  · intro d2 hlen hm he hp hc hs
    simp only [read_pyth_price]
    rw [hlen, readLE_congr d2 data 0 4 (fun i hi => by simpa using hm i hi),
      readLE_congr d2 data PYTH_EXPO_OFFSET 4 he,
      readLE_congr d2 data PYTH_AGG_PRICE_OFFSET 8 hp,
      readLE_congr d2 data PYTH_AGG_CONF_OFFSET 8 hc,
      readLE_congr d2 data PYTH_AGG_STATUS_OFFSET 4 hs]

/-- Oracle account bytes with exponent `-8`, price 500, confidence 3,
trading status. -/
def oracleBytesC8 : List Nat :=
  [0xd4, 0xc3, 0xb2, 0xa1] ++ List.replicate 16 0 ++
    [0xf8, 0xff, 0xff, 0xff] ++ List.replicate 184 0 ++
    ([0xf4, 0x01] ++ List.replicate 6 0) ++ ([3] ++ List.replicate 7 0) ++
    [1, 0, 0, 0] ++ List.replicate 12 0

set_option maxRecDepth 8000 in
theorem claimC8_witness :
    (∀ b ∈ oracleBytesC8, b < 256) ∧
    read_pyth_price oracleBytesC8 = .ok (500, -8, 3) :=
  ⟨by decide,
    ((claimC8 oracleBytesC8 (by decide)).2.1 (by decide)).trans (by decide)⟩

/-- C9 (amended): liquidation of a trader with no seat fails with
`ProgramError::InvalidArgument` (not with the spec taxonomy's *NotFound*),
and liquidation of a seat with a zero position fails with
`NotLiquidatable`; both checks precede every state mutation, so no
settlement occurs. -/
theorem claimC9_amended :
    (∀ (m : Market) (liquidator target : Nat),
      seatLookup m.seats target = none →
      process_liquidate m liquidator target = .error .invalidArgument) ∧
    ∀ (m : Market) (liquidator target : Nat) (seat : ClaimedSeat),
      seatLookup m.seats target = some seat → seat.positionSize = 0 →
      process_liquidate m liquidator target = .error .notLiquidatable := by
  constructor
  · intro m liquidator target h
    simp only [process_liquidate, h]
  · intro m liquidator target seat h hz
    simp only [process_liquidate, h, hz, if_true, ite_true]

/-- A market whose single seat has a zero position. -/
def wmC9 : Market :=
  { seats := [(7, ⟨5, 0, 0, 0⟩)], bids := [], asks := [],
    oracleMantissa := 0, oracleExpo := 0,
    baseMintDecimals := 6, quoteMintDecimals := 6,
    maintenanceMarginBps := 500, totalLongBaseAtoms := 0,
    totalShortBaseAtoms := 0, cumulativeFunding := 0, lastFundingTs := 0 }

theorem claimC9_witness :
    process_liquidate wmC9 1 7 = .error .notLiquidatable :=
  claimC9_amended.2 wmC9 1 7 ⟨5, 0, 0, 0⟩ (by decide) (by decide)

/-- The liquidator reward never exceeds the settled margin. -/
theorem liqReward_le (settledMargin : Nat) :
    liqReward settledMargin ≤ settledMargin := by
  unfold liqReward
  split <;> omega

/-- C10: in a successful liquidation whose liquidator has no claimed seat
and whose reward is positive, the reward is deducted from the settled
margin but credited to no seat: relative to the post-cancellation state,
the sum of all seat quote-withdrawable balances ends `reward` short of
what the settlement alone would leave (`sum + margin + reward =
sum_before + settled`), and every seat other than the target is
untouched. -/
theorem claimC10 {m : Market} {liquidator target : Nat}
    {seat : ClaimedSeat} {mark : QuoteAtomsPerBaseAtom} {cv : Nat}
    (hnd : (m.seats.map Prod.fst).Nodup)
    (hseat : seatLookup m.seats target = some seat)
    (hpos : ¬seat.positionSize = 0)
    (hmark : compute_mark_price (cancelAllOrders m target) = .ok mark)
    (hcv : liqCurrentValue mark seat.positionSize.natAbs = some cv)
    (hliq : (marginOf (cancelAllOrders m target) target : Int) +
        liqUnrealizedPnl seat.positionSize cv seat.quoteCostBasis <
      (liqRequiredMaintenance cv m.maintenanceMarginBps : Int))
    (habsent : seatLookup m.seats liquidator = none)
    (hrew : 0 < liqReward (liqSettledMargin (marginOf (cancelAllOrders m target) target)
      (liqUnrealizedPnl seat.positionSize cv seat.quoteCostBasis))) :
    ∀ mres : Market, process_liquidate m liquidator target = .ok mres →
      (sumQuote mres.seats + marginOf (cancelAllOrders m target) target +
          liqReward (liqSettledMargin (marginOf (cancelAllOrders m target) target)
            (liqUnrealizedPnl seat.positionSize cv seat.quoteCostBasis)) =
        sumQuote (cancelAllOrders m target).seats +
          liqSettledMargin (marginOf (cancelAllOrders m target) target)
            (liqUnrealizedPnl seat.positionSize cv seat.quoteCostBasis)) ∧
      ∀ k, ¬k = target →
        seatLookup mres.seats k = seatLookup (cancelAllOrders m target).seats k := by
  intro mres hres
  have hok := @liquidate_ok_spec m liquidator target seat mark cv
    hseat hpos hmark hcv hliq
  rw [hres] at hok
  have hmres := Except.ok.inj hok
  have hts := seatLookup_updateSeat_self m.seats target
    (fun s => { s with
      quoteWithdrawable := satAddU64 s.quoteWithdrawable
        (((m.bids.filter (fun o => o.trader = target)).map Order.lockedFunds).sum)
      baseWithdrawable := satAddU64 s.baseWithdrawable
        (((m.asks.filter (fun o => o.trader = target)).map Order.lockedFunds).sum) })
    seat hseat
  have htseat : seatLookup (cancelAllOrders m target).seats target =
      some { seat with
        quoteWithdrawable := satAddU64 seat.quoteWithdrawable
          (((m.bids.filter (fun o => o.trader = target)).map Order.lockedFunds).sum)
        baseWithdrawable := satAddU64 seat.baseWithdrawable
          (((m.asks.filter (fun o => o.trader = target)).map Order.lockedFunds).sum) } := by
    simp only [cancelAllOrders]
    exact hts
  have hkeys : ((cancelAllOrders m target).seats.map Prod.fst).Nodup := by
    simp only [cancelAllOrders]
    rw [updateSeat_keys]
    exact hnd
  have habs_mc : seatLookup (cancelAllOrders m target).seats liquidator = none := by
    simp only [cancelAllOrders]
    exact seatLookup_updateSeat_none _ _ _ _ habsent
  have hmargin : marginOf (cancelAllOrders m target) target =
      satAddU64 seat.quoteWithdrawable
        (((m.bids.filter (fun o => o.trader = target)).map Order.lockedFunds).sum) := by
    simp [marginOf, htseat]
  constructor
  · rw [hmres]
    have habs1 : seatLookup
        (updateSeat (cancelAllOrders m target).seats target (fun s =>
          { s with
            positionSize := 0
            quoteCostBasis := 0
            quoteWithdrawable :=
              liqSettledMargin (marginOf (cancelAllOrders m target) target)
                  (liqUnrealizedPnl seat.positionSize cv seat.quoteCostBasis) -
                liqReward (liqSettledMargin (marginOf (cancelAllOrders m target) target)
                  (liqUnrealizedPnl seat.positionSize cv seat.quoteCostBasis)) }))
        liquidator = none :=
      seatLookup_updateSeat_none _ _ _ _ habs_mc
    have hsum := sumQuote_updateSeat (cancelAllOrders m target).seats target
      (fun s =>
        { s with
          positionSize := 0
          quoteCostBasis := 0
          quoteWithdrawable :=
            liqSettledMargin (marginOf (cancelAllOrders m target) target)
                (liqUnrealizedPnl seat.positionSize cv seat.quoteCostBasis) -
              liqReward (liqSettledMargin (marginOf (cancelAllOrders m target) target)
                (liqUnrealizedPnl seat.positionSize cv seat.quoteCostBasis)) })
      _ hkeys htseat
    have hle := liqReward_le (liqSettledMargin (marginOf (cancelAllOrders m target) target)
      (liqUnrealizedPnl seat.positionSize cv seat.quoteCostBasis))
    by_cases hp : 0 < seat.positionSize <;>
      simp only [hp, if_true, if_false, ite_true, ite_false, hrew,
        updateSeat_absent _ _ _ habs1] <;>
      dsimp only at hsum ⊢ <;>
      rw [← hmargin] at hsum <;>
      omega
  · intro k hk
    rw [hmres]
    by_cases hp : 0 < seat.positionSize <;>
      simp only [hp, if_true, if_false, ite_true, ite_false, hrew,
        updateSeat_absent _ _ _ (seatLookup_updateSeat_none _ _ _ _ habs_mc)] <;>
      exact seatLookup_updateSeat_ne _ _ _ _ hk

/-- A market whose single seat (trader 7) is liquidatable with settled
margin 100 and reward 2, while the liquidator (trader 9) has no seat. -/
def wmC10 : Market :=
  { seats := [(7, ⟨100, 0, 2, 60⟩)], bids := [], asks := [],
    oracleMantissa := 30, oracleExpo := 0,
    baseMintDecimals := 6, quoteMintDecimals := 6,
    maintenanceMarginBps := 20000, totalLongBaseAtoms := 2,
    totalShortBaseAtoms := 0, cumulativeFunding := 0, lastFundingTs := 0 }

theorem claimC10_witness :
    sumQuote [(7, (⟨98, 0, 0, 0⟩ : ClaimedSeat))] +
        marginOf (cancelAllOrders wmC10 7) 7 +
        liqReward (liqSettledMargin (marginOf (cancelAllOrders wmC10 7) 7)
          (liqUnrealizedPnl 2 60 60)) =
      sumQuote (cancelAllOrders wmC10 7).seats +
        liqSettledMargin (marginOf (cancelAllOrders wmC10 7) 7)
          (liqUnrealizedPnl 2 60 60) :=
  ((@claimC10 wmC10 9 7 ⟨100, 0, 2, 60⟩ ⟨30, 0⟩ 60 (by decide) (by decide) (by decide)
      (by decide) (by decide) (by decide) (by decide) (by decide))
    { wmC10 with seats := [(7, ⟨98, 0, 0, 0⟩)], totalLongBaseAtoms := 0 }
    (by decide)).1
